import Mathlib

/-!
Verification of the design-tokens CLI's discovery/transform layer.

The development shallowly embeds the TypeScript source:
* `discover` module: file-suffix classification, output-filename and
  theme-name derivation (`discoverTokenFiles`, `getOutputFileName`,
  `getThemeName`);
* `transform` module: token counting, token-path extraction,
  legacy-format validation, the custom name transform, and the per-file
  build orchestration (`countTokens`, `extractTokenPaths`,
  `hasLegacyTokenFormat`, `validateDTCGFormat`, `processTokenFile`,
  `transformTokens`);
* the compiled `dist` variant of `processTokenFile`, which lacks format
  validation.

Strings are modelled as `List Char`; JS strings `s.toLowerCase()` is
modelled on the ASCII range; the filesystem and the external Style
Dictionary engine are abstracted (files carry their parsed JSON content,
the engine is an explicit function parameter, and the configuration
object handed to it is recorded).
-/

/-- Suffix test on character lists, modelling `REGEX.test(fileName)` for the
anchored suffix regexes of the source. -/
def endsWith (s suffix : List Char) : Bool :=
  List.isSuffixOf suffix s

/-- Removes the last `n` characters, modelling `basename.replace(/suffix$/, "")`
once the suffix is known to match. -/
def dropSuffix (s : List Char) (n : Nat) : List Char :=
  s.take (s.length - n)

/-- The `OUTPUT_PATTERN` suffix `.inp.json`. -/
def inpSuffix : List Char := ".inp.json".toList

/-- The `REFERENCE_PATTERN` suffix `.ref.inp.json`. -/
def refSuffix : List Char := ".ref.inp.json".toList

/-- The `THEME_PATTERN` suffix `.theme.inp.json`. -/
def themeSuffix : List Char := ".theme.inp.json".toList

/-- The generated-file suffix `.vars.gen.css`. -/
def varsGenCss : List Char := ".vars.gen.css".toList

/-- Model of `getOutputFileName`: strip a trailing `.theme.inp.json` or
`.inp.json` (the regex `\.(theme\.)?inp\.json$`) and append `.vars.gen.css`. -/
def getOutputFileName (basename : List Char) : List Char :=
  (if endsWith basename themeSuffix then dropSuffix basename themeSuffix.length
   else if endsWith basename inpSuffix then dropSuffix basename inpSuffix.length
   else basename) ++ varsGenCss

/-- Model of `getThemeName`: strip a trailing `.theme.inp.json`. -/
def getThemeName (basename : List Char) : List Char :=
  if endsWith basename themeSuffix then dropSuffix basename themeSuffix.length
  else basename

/-- The apostrophe character, written numerically. -/
def apos : Char := Char.ofNat 39

/-- The literal `:root` selector used for standard output files. -/
def rootSelector : List Char := ":root".toList

/-- The selector template `[data-mantine-color-scheme='<theme>']` built in
`transformTokens` for theme files. -/
def themeSelectorFor (basename : List Char) : List Char :=
  "[data-mantine-color-scheme=".toList ++ [apos] ++ getThemeName basename
    ++ [apos, ']']

mutual
/-- JSON value tree, as produced by `JSON.parse`. Objects and arrays are
separate mutual inductives so that all traversals are structural and
kernel-reducible. -/
inductive Json where
  | jnull : Json
  | jbool (b : Bool) : Json
  | jnum (n : Int) : Json
  | jstr (s : List Char) : Json
  | jarr (elems : JsonArr) : Json
  | jobj (fields : JsonObj) : Json

/-- A JSON array: a list of JSON values. -/
inductive JsonArr where
  | nil : JsonArr
  | cons (head : Json) (tail : JsonArr) : JsonArr

/-- A JSON object: an ordered association list of key/value fields. -/
inductive JsonObj where
  | nil : JsonObj
  | cons (key : List Char) (val : Json) (tail : JsonObj) : JsonObj
end

/-- The `$value` key. -/
def dollarValueKey : List Char := "$value".toList

/-- The legacy `value` key. -/
def valueKey : List Char := "value".toList

/-- Key membership in an object, modelling the JS `key in obj` check. -/
def keyMem (fields : JsonObj) (k : List Char) : Bool :=
  match fields with
  | JsonObj.nil => false
  | JsonObj.cons key _ tail => (key = k : Bool) || keyMem tail k

mutual
/-- Model of `countTokens(tokens, count)`: walks `Object.values`; a child
object carrying `$value` counts as one token and is not descended into;
any other object — including arrays, which in JS satisfy
`typeof value === "object"` — is descended into. -/
def countTokens : Json → Nat → Nat
  | Json.jobj fields, count => countFields fields count
  | Json.jarr elems, count => countElems elems count
  | _, count => count

/-- Object part of the `countTokens` walk. -/
def countFields : JsonObj → Nat → Nat
  | JsonObj.nil, count => count
  | JsonObj.cons _ v tail, count => countFields tail (countChild v count)

/-- Array part of the `countTokens` walk. -/
def countElems : JsonArr → Nat → Nat
  | JsonArr.nil, count => count
  | JsonArr.cons v tail, count => countElems tail (countChild v count)

/-- Per-child step of `countTokens`: objects with `$value` count once,
other containers are recursed into, primitives are skipped. -/
def countChild : Json → Nat → Nat
  | Json.jobj fields, count =>
      if keyMem fields dollarValueKey then count + 1 else countFields fields count
  | Json.jarr elems, count => countElems elems count
  | _, count => count
end

mutual
/-- Model of `hasLegacyTokenFormat(tokens)`: scans `Object.values`; a child
object with a `value` key but no `$value` key is a legacy hit; every child
container (object or array) is recursed into. The keys of the root object
itself are never inspected. -/
def hasLegacyTokenFormat : Json → Bool
  | Json.jobj fields => legacyFields fields
  | Json.jarr elems => legacyElems elems
  | _ => false

/-- Object part of the `hasLegacyTokenFormat` walk. -/
def legacyFields : JsonObj → Bool
  | JsonObj.nil => false
  | JsonObj.cons _ v tail => legacyChild v || legacyFields tail

/-- Array part of the `hasLegacyTokenFormat` walk. -/
def legacyElems : JsonArr → Bool
  | JsonArr.nil => false
  | JsonArr.cons v tail => legacyChild v || legacyElems tail

/-- Per-child step of `hasLegacyTokenFormat`: `"value" in obj && !("$value" in obj)`
for a child object (a JS array has neither property), then recursion. -/
def legacyChild : Json → Bool
  | Json.jobj fields =>
      (keyMem fields valueKey && !keyMem fields dollarValueKey) || legacyFields fields
  | Json.jarr elems => legacyElems elems
  | _ => false
end

/-- Dot-join of path segments, modelling `newPath.join(".")`. -/
def dotJoin (segments : List (List Char)) : List Char :=
  List.intercalate ['.'] segments

/-- Decimal rendering of an array index, modelling the string keys that
`Object.entries` yields for a JS array. -/
def natKey (i : Nat) : List Char :=
  Nat.toDigits 10 i

/-- Model of `Set.prototype.add`: append the element unless already present. -/
def insertSet (paths : List (List Char)) (p : List Char) : List (List Char) :=
  if p ∈ paths then paths else paths ++ [p]

mutual
/-- Model of `extractTokenPaths(tokens, currentPath, paths)`: walks
`Object.entries`; a child object with `$value` adds the dot-join of its path
to the set; other containers are recursed into with the extended path
(array elements under their decimal index key). -/
def extractTokenPaths : Json → List (List Char) → List (List Char) → List (List Char)
  | Json.jobj fields, currentPath, paths => extractFields fields currentPath paths
  | Json.jarr elems, currentPath, paths => extractElems elems 0 currentPath paths
  | _, _, paths => paths

/-- Object part of the `extractTokenPaths` walk. -/
def extractFields : JsonObj → List (List Char) → List (List Char) → List (List Char)
  | JsonObj.nil, _, paths => paths
  | JsonObj.cons k v tail, currentPath, paths =>
      extractFields tail currentPath (extractEntry k v currentPath paths)

/-- Array part of the `extractTokenPaths` walk, tracking the element index. -/
def extractElems : JsonArr → Nat → List (List Char) → List (List Char) → List (List Char)
  | JsonArr.nil, _, _, paths => paths
  | JsonArr.cons v tail, i, currentPath, paths =>
      extractElems tail (i + 1) currentPath (extractEntry (natKey i) v currentPath paths)

/-- Per-entry step of `extractTokenPaths` for key `k` and child value `v`. -/
def extractEntry (k : List Char) (v : Json) (currentPath paths : List (List Char)) :
    List (List Char) :=
  match v with
  | Json.jobj fields =>
      if keyMem fields dollarValueKey then insertSet paths (dotJoin (currentPath ++ [k]))
      else extractFields fields (currentPath ++ [k]) paths
  | Json.jarr elems => extractElems elems 0 (currentPath ++ [k]) paths
  | _ => paths
end

mutual
/-- Proof apparatus: the dot-joined paths of all token nodes of a document,
in traversal order and without deduplication. `extractTokenPaths` inserts
exactly these paths into its set, and `countTokens` counts exactly one per
entry of this list. -/
def tokenPathList : Json → List (List Char) → List (List Char)
  | Json.jobj fields, currentPath => pathsFields fields currentPath
  | Json.jarr elems, currentPath => pathsArr elems 0 currentPath
  | _, _ => []

/-- Object part of `tokenPathList`. -/
def pathsFields : JsonObj → List (List Char) → List (List Char)
  | JsonObj.nil, _ => []
  | JsonObj.cons k v tail, currentPath =>
      pathsEntry k v currentPath ++ pathsFields tail currentPath

/-- Array part of `tokenPathList`. -/
def pathsArr : JsonArr → Nat → List (List Char) → List (List Char)
  | JsonArr.nil, _, _ => []
  | JsonArr.cons v tail, i, currentPath =>
      pathsEntry (natKey i) v currentPath ++ pathsArr tail (i + 1) currentPath

/-- Per-entry step of `tokenPathList`. -/
def pathsEntry (k : List Char) (v : Json) (currentPath : List (List Char)) :
    List (List Char) :=
  match v with
  | Json.jobj fields =>
      if keyMem fields dollarValueKey then [dotJoin (currentPath ++ [k])]
      else pathsFields fields (currentPath ++ [k])
  | Json.jarr elems => pathsArr elems 0 (currentPath ++ [k])
  | _ => []
end

/-- An object that uses the legacy token shape: it has a `value` key and no
`$value` key. -/
def isLegacyObj : Json → Bool
  | Json.jobj fields => keyMem fields valueKey && !keyMem fields dollarValueKey
  | _ => false

mutual
/-- Proof apparatus: every value strictly below the root of a JSON tree,
reached through object fields and array elements. -/
def properSubvalues : Json → List Json
  | Json.jobj fields => subFields fields
  | Json.jarr elems => subElems elems
  | _ => []

/-- Object part of `properSubvalues`. -/
def subFields : JsonObj → List Json
  | JsonObj.nil => []
  | JsonObj.cons _ v tail => (v :: properSubvalues v) ++ subFields tail

/-- Array part of `properSubvalues`. -/
def subElems : JsonArr → List Json
  | JsonArr.nil => []
  | JsonArr.cons v tail => (v :: properSubvalues v) ++ subElems tail
end

mutual
/-- Rendering of claim C6's description of the counting walk: an object node
with `$value` counts as one token, other object nodes are descended into,
and arrays and primitives are neither counted nor descended into. -/
def claimCountNoArrays : Json → Nat
  | Json.jobj fields => claimCountFields fields
  | _ => 0

/-- Object part of `claimCountNoArrays`. -/
def claimCountFields : JsonObj → Nat
  | JsonObj.nil => 0
  | JsonObj.cons _ v tail => claimCountEntry v + claimCountFields tail

/-- Per-child step of `claimCountNoArrays`: only object children are
considered at all. -/
def claimCountEntry : Json → Nat
  | Json.jobj fields =>
      if keyMem fields dollarValueKey then 1 else claimCountFields fields
  | _ => 0
end

mutual
/-- Specification-style direct count of token nodes: like claim C6's walk but
with arrays descended into (and never themselves counted), matching the JS
`typeof value === "object"` test that is true of arrays. -/
def specTokenCount : Json → Nat
  | Json.jobj fields => specCountFields fields
  | Json.jarr elems => specCountElems elems
  | _ => 0

/-- Object part of `specTokenCount`. -/
def specCountFields : JsonObj → Nat
  | JsonObj.nil => 0
  | JsonObj.cons _ v tail => specCountEntry v + specCountFields tail

/-- Array part of `specTokenCount`. -/
def specCountElems : JsonArr → Nat
  | JsonArr.nil => 0
  | JsonArr.cons v tail => specCountEntry v + specCountElems tail

/-- Per-child step of `specTokenCount`. -/
def specCountEntry : Json → Nat
  | Json.jobj fields =>
      if keyMem fields dollarValueKey then 1 else specCountFields fields
  | Json.jarr elems => specCountElems elems
  | _ => 0
end

/-- ASCII model of `String.prototype.toLowerCase` applied per character. -/
def jsToLowerChar (c : Char) : Char :=
  if 65 ≤ c.toNat ∧ c.toNat ≤ 90 then Char.ofNat (c.toNat + 32) else c

/-- The characters matched by the regex class `\s` (ASCII part). -/
def isJsWhitespace (c : Char) : Bool :=
  c = ' ' || c = '\t' || c = '\n' || c = '\r' || c = '\x0b' || c = '\x0c'

mutual
/-- Model of `.replace(/\s+/g, "-")`: each maximal run of whitespace becomes
a single dash; all other characters are kept. -/
def squashWhitespace : List Char → List Char
  | [] => []
  | c :: rest =>
      if isJsWhitespace c then '-' :: squashRun rest
      else c :: squashWhitespace rest

/-- State of `squashWhitespace` just after emitting the dash for a run:
further whitespace of the same run is dropped. -/
def squashRun : List Char → List Char
  | [] => []
  | c :: rest =>
      if isJsWhitespace c then squashRun rest
      else c :: squashWhitespace rest
end

/-- The per-segment transform of the custom name transform
`name/kebab-with-spaces`: `String(segment).toLowerCase().replace(/\s+/g, "-")`. -/
def normalizeSegment (s : List Char) : List Char :=
  squashWhitespace (s.map jsToLowerChar)

/-- The full custom name transform: normalize every path segment, then
`transformedSegments.join("-")`. -/
def kebabName (pathSegments : List (List Char)) : List Char :=
  List.intercalate ['-'] (pathSegments.map normalizeSegment)

/-- A discovered file: its basename together with its parsed JSON content
(`none` models a file on which `JSON.parse` throws). Directory components
play no role in classification or naming and are not modelled. -/
structure TokenFile where
  name : List Char
  content : Option Json

/-- The categorized file lists returned by `discoverTokenFiles`. -/
structure DiscoveredFiles where
  outputFiles : List TokenFile
  themeFiles : List TokenFile
  referenceFiles : List TokenFile
  allFiles : List TokenFile

/-- The classification loop of `discoverTokenFiles`: reference pattern first,
then theme, then output; other files are ignored. Returns
(referenceFiles, themeFiles, outputFiles) in input order. -/
def classifyFiles : List TokenFile → List TokenFile × List TokenFile × List TokenFile
  | [] => ([], [], [])
  | f :: rest =>
      let (refs, themes, outs) := classifyFiles rest
      if endsWith f.name refSuffix then (f :: refs, themes, outs)
      else if endsWith f.name themeSuffix then (refs, f :: themes, outs)
      else if endsWith f.name inpSuffix then (refs, themes, f :: outs)
      else (refs, themes, outs)

/-- The error message raised when no token files are found. -/
def noTokenFilesError : List Char :=
  "No token files found. Token files must have .inp.json, .theme.inp.json, or .ref.inp.json extension.".toList

/-- Model of `discoverTokenFiles`, taking the list of files found by the
recursive directory walk: classify, fail if all three buckets are empty,
otherwise return the buckets with `allFiles = reference ++ theme ++ output`. -/
def discoverTokenFiles (allFoundFiles : List TokenFile) :
    Except (List Char) DiscoveredFiles :=
  let (referenceFiles, themeFiles, outputFiles) := classifyFiles allFoundFiles
  if referenceFiles.length + themeFiles.length + outputFiles.length = 0 then
    Except.error noTokenFilesError
  else
    Except.ok
      { outputFiles := outputFiles
        themeFiles := themeFiles
        referenceFiles := referenceFiles
        allFiles := referenceFiles ++ themeFiles ++ outputFiles }

/-- The per-output-target configuration handed to the Style Dictionary
constructor by `processTokenFile`: its source list, destination filename,
CSS selector, and emission filter over a candidate token's path. -/
structure SDFileConfig where
  source : List TokenFile
  destination : List Char
  selector : List Char
  filter : List (List Char) → Bool

/-- Result record of one successful `processTokenFile` call. -/
structure TransformResult where
  outputPath : List Char
  tokenCount : Nat
  inputPath : List Char
deriving DecidableEq

/-- Run statistics accumulated by `transformTokens`. -/
structure ProcessingStats where
  tokensProcessed : Nat
  tokensSkipped : Nat
  outputTokenCounts : List (List Char × Nat)
deriving DecidableEq

/-- Model of `Map.prototype.set`: update an existing key in place or append. -/
def mapSet (m : List (List Char × Nat)) (k : List Char) (v : Nat) :
    List (List Char × Nat) :=
  match m with
  | [] => [(k, v)]
  | (k', v') :: rest => if k' = k then (k, v) :: rest else (k', v') :: mapSet rest k v

/-- The message with which `validateDTCGFormat` rejects a legacy-format file. -/
def dtcgMessage (fileName : List Char) : List Char :=
  "Token file \"".toList ++ fileName ++
    "\" is not in W3C DTCG format. Found legacy format using \"value\" and \"type\" properties. Please use \"$value\" and \"$type\" properties instead. See: https://tr.designtokens.org/format/".toList

/-- Model of `validateDTCGFormat`: throw the legacy-format error when
`hasLegacyTokenFormat` detects the legacy shape. -/
def validateDTCGFormat (tokens : Json) (fileName : List Char) :
    Except (List Char) Unit :=
  if hasLegacyTokenFormat tokens then Except.error (dtcgMessage fileName)
  else Except.ok ()

/-- Stand-in message for a `JSON.parse` failure. -/
def jsonParseError : List Char := "Unexpected token in JSON".toList

/-- The Style Dictionary configuration literal built by `processTokenFile`:
all discovered files as `source`, this file's derived destination and
selector, and a filter accepting a token iff the dot-join of its path is in
the file's own extracted path set. -/
def mkFileConfig (allSourceFiles : List TokenFile) (destination selector : List Char)
    (inputContent : Json) : SDFileConfig :=
  { source := allSourceFiles
    destination := destination
    selector := selector
    filter := fun tokenPath =>
      decide (dotJoin tokenPath ∈ extractTokenPaths inputContent [] []) }

/-- Model of the TypeScript `processTokenFile`: derive the output filename,
parse the input, validate the DTCG format, count tokens, extract the file's
path set, invoke the engine once on the built configuration, and return the
result record. The second component records the engine invocations made. -/
def processTokenFile (engine : SDFileConfig → Except (List Char) Unit)
    (inputFile : TokenFile) (allSourceFiles : List TokenFile)
    (selector : List Char) :
    Except (List Char) TransformResult × List SDFileConfig :=
  let outputFileName := getOutputFileName inputFile.name
  match inputFile.content with
  | none => (Except.error jsonParseError, [])
  | some inputContent =>
      match validateDTCGFormat inputContent inputFile.name with
      | Except.error e => (Except.error e, [])
      | Except.ok _ =>
          let tokenCount := countTokens inputContent 0
          let config := mkFileConfig allSourceFiles outputFileName selector inputContent
          match engine config with
          | Except.error e => (Except.error e, [config])
          | Except.ok _ =>
              (Except.ok
                { outputPath := outputFileName
                  tokenCount := tokenCount
                  inputPath := inputFile.name }, [config])

/-- Model of the compiled `dist/transform.js` `processTokenFile`: identical
to the TypeScript version except that no DTCG format validation is run. -/
def distProcessTokenFile (engine : SDFileConfig → Except (List Char) Unit)
    (inputFile : TokenFile) (allSourceFiles : List TokenFile)
    (selector : List Char) :
    Except (List Char) TransformResult × List SDFileConfig :=
  let outputFileName := getOutputFileName inputFile.name
  match inputFile.content with
  | none => (Except.error jsonParseError, [])
  | some inputContent =>
      let tokenCount := countTokens inputContent 0
      let config := mkFileConfig allSourceFiles outputFileName selector inputContent
      match engine config with
      | Except.error e => (Except.error e, [config])
      | Except.ok _ =>
          (Except.ok
            { outputPath := outputFileName
              tokenCount := tokenCount
              inputPath := inputFile.name }, [config])

/-- Accumulated outcome of a `transformTokens` run: the recorded results,
the statistics, and the trace of engine invocations. -/
structure RunOutcome where
  results : List TransformResult
  stats : ProcessingStats
  engineCalls : List SDFileConfig

/-- One `for (const inputFile of files)` loop of `transformTokens` with its
try/catch: on success push the result and update the statistics, on any
error increment the skip counter and continue. -/
def processLoop (engine : SDFileConfig → Except (List Char) Unit)
    (allFiles : List TokenFile) (selFn : TokenFile → List Char) :
    List TokenFile → RunOutcome → RunOutcome
  | [], acc => acc
  | f :: rest, acc =>
      let pr := processTokenFile engine f allFiles (selFn f)
      match pr.1 with
      | Except.ok r =>
          processLoop engine allFiles selFn rest
            { results := acc.results ++ [r]
              stats :=
                { tokensProcessed := acc.stats.tokensProcessed + r.tokenCount
                  tokensSkipped := acc.stats.tokensSkipped
                  outputTokenCounts :=
                    mapSet acc.stats.outputTokenCounts r.outputPath r.tokenCount }
              engineCalls := acc.engineCalls ++ pr.2 }
      | Except.error _ =>
          processLoop engine allFiles selFn rest
            { results := acc.results
              stats :=
                { tokensProcessed := acc.stats.tokensProcessed
                  tokensSkipped := acc.stats.tokensSkipped + 1
                  outputTokenCounts := acc.stats.outputTokenCounts }
              engineCalls := acc.engineCalls ++ pr.2 }

/-- Model of `transformTokens`: process the standard output files with the
`:root` selector, then the theme files with the Mantine color-scheme
selector, threading the statistics through both loops. -/
def transformTokens (engine : SDFileConfig → Except (List Char) Unit)
    (discoveredFiles : DiscoveredFiles) : RunOutcome :=
  let afterOutputs :=
    processLoop engine discoveredFiles.allFiles (fun _ => rootSelector)
      discoveredFiles.outputFiles
      { results := [], stats := ⟨0, 0, []⟩, engineCalls := [] }
  processLoop engine discoveredFiles.allFiles (fun f => themeSelectorFor f.name)
    discoveredFiles.themeFiles afterOutputs

/-- Proof apparatus: the engine configuration that processing a given file
generates, if any — `none` when `JSON.parse` fails or validation rejects. -/
def fileCall (allSourceFiles : List TokenFile) (selector : List Char)
    (f : TokenFile) : Option SDFileConfig :=
  match f.content with
  | none => none
  | some doc =>
      if hasLegacyTokenFormat doc then none
      else some (mkFileConfig allSourceFiles (getOutputFileName f.name) selector doc)

/-- Proof apparatus: the outcome of processing one file. -/
def fileOutcome (engine : SDFileConfig → Except (List Char) Unit)
    (allSourceFiles : List TokenFile) (selector : List Char) (f : TokenFile) :
    Except (List Char) TransformResult :=
  (processTokenFile engine f allSourceFiles selector).1

/-- Whether an `Except` is a success. -/
def isOkE {ε α : Type} : Except ε α → Bool
  | Except.ok _ => true
  | Except.error _ => false

/-- Example engine that always succeeds. -/
def engineOk : SDFileConfig → Except (List Char) Unit := fun _ => Except.ok ()

/-- Folding `Set.prototype.add` over a list of paths. -/
def insertAll (paths : List (List Char)) (l : List (List Char)) : List (List Char) :=
  l.foldl insertSet paths

/-- The classification predicate of the reference bucket. -/
def isRefName (f : TokenFile) : Bool := endsWith f.name refSuffix

/-- The classification predicate of the theme bucket. -/
def isThemeName (f : TokenFile) : Bool :=
  !endsWith f.name refSuffix && endsWith f.name themeSuffix

/-- The classification predicate of the output bucket. -/
def isOutputName (f : TokenFile) : Bool :=
  !endsWith f.name refSuffix && !endsWith f.name themeSuffix && endsWith f.name inpSuffix

/-- Example document `color.primary = #60a882` (used as reference content). -/
def exRefDoc : Json :=
  Json.jobj (JsonObj.cons "color".toList
    (Json.jobj (JsonObj.cons "primary".toList
      (Json.jobj (JsonObj.cons "$value".toList (Json.jstr "#60a882".toList) JsonObj.nil))
      JsonObj.nil))
    JsonObj.nil)

/-- Example document with one referencing token at `mantine.primary`. -/
def exCoreDoc : Json :=
  Json.jobj (JsonObj.cons "mantine".toList
    (Json.jobj (JsonObj.cons "primary".toList
      (Json.jobj (JsonObj.cons "$value".toList
        (Json.jstr "\x7bcolor.primary\x7d".toList) JsonObj.nil))
      JsonObj.nil))
    JsonObj.nil)

/-- Example theme document with one token at `accent`. -/
def exThemeDoc : Json :=
  Json.jobj (JsonObj.cons "accent".toList
    (Json.jobj (JsonObj.cons "$value".toList (Json.jstr "#222222".toList) JsonObj.nil))
    JsonObj.nil)

/-- Example document whose only token sits inside an array:
`\x7b"a": [ \x7b"$value": "x"\x7d ]\x7d`. -/
def exArrayDoc : Json :=
  Json.jobj (JsonObj.cons "a".toList
    (Json.jarr (JsonArr.cons
      (Json.jobj (JsonObj.cons "$value".toList (Json.jstr "x".toList) JsonObj.nil))
      JsonArr.nil))
    JsonObj.nil)

/-- Example document with three `$value` leaves at different nesting depths. -/
def exThreeLeafDoc : Json :=
  Json.jobj (JsonObj.cons "a".toList
    (Json.jobj (JsonObj.cons "$value".toList (Json.jnum 1) JsonObj.nil))
    (JsonObj.cons "b".toList
      (Json.jobj (JsonObj.cons "c".toList
        (Json.jobj (JsonObj.cons "$value".toList (Json.jnum 2) JsonObj.nil))
        (JsonObj.cons "d".toList
          (Json.jobj (JsonObj.cons "e".toList
            (Json.jobj (JsonObj.cons "$value".toList (Json.jnum 3) JsonObj.nil))
            JsonObj.nil))
          JsonObj.nil)))
      JsonObj.nil))

/-- Example document with two distinct token nodes whose dot-joined paths
collide: a token under the literal key `a.b`, and a token at `a` → `b`. -/
def exDotDoc : Json :=
  Json.jobj (JsonObj.cons "a.b".toList
    (Json.jobj (JsonObj.cons "$value".toList (Json.jstr "1".toList) JsonObj.nil))
    (JsonObj.cons "a".toList
      (Json.jobj (JsonObj.cons "b".toList
        (Json.jobj (JsonObj.cons "$value".toList (Json.jstr "2".toList) JsonObj.nil))
        JsonObj.nil))
      JsonObj.nil))

/-- Example document whose root object itself carries a legacy `value` key. -/
def exRootLegacyDoc : Json :=
  Json.jobj (JsonObj.cons "value".toList (Json.jstr "#fff".toList) JsonObj.nil)

/-- Example document with a nested legacy token `color -> value`. -/
def exLegacyDoc : Json :=
  Json.jobj (JsonObj.cons "color".toList
    (Json.jobj (JsonObj.cons "value".toList (Json.jstr "#fff".toList) JsonObj.nil))
    JsonObj.nil)

/-- Example reference file. -/
def refFile : TokenFile := ⟨"primitive.ref.inp.json".toList, some exRefDoc⟩

/-- Example theme file. -/
def themeFile : TokenFile := ⟨"dark.theme.inp.json".toList, some exThemeDoc⟩

/-- Example standard output file. -/
def outFile : TokenFile := ⟨"core.inp.json".toList, some exCoreDoc⟩

/-- Example file with a nested legacy-format document. -/
def legacyFile : TokenFile := ⟨"colors.inp.json".toList, some exLegacyDoc⟩

/-- Example file whose root object carries the legacy `value` key. -/
def rootLegacyFile : TokenFile := ⟨"base.inp.json".toList, some exRootLegacyDoc⟩

/-- Example directory scan: one file of each bucket plus an ignored file. -/
def exFoundFiles : List TokenFile :=
  [refFile, themeFile, outFile, ⟨"README.md".toList, none⟩]

/-- The classification of `exFoundFiles`. -/
def exDiscovered : DiscoveredFiles :=
  { outputFiles := [outFile]
    themeFiles := [themeFile]
    referenceFiles := [refFile]
    allFiles := [refFile, themeFile, outFile] }

/-- Example directory scan containing no token file at all. -/
def noMatchFiles : List TokenFile := [⟨"README.md".toList, none⟩]

theorem endsWith_append (X suffix : List Char) : endsWith (X ++ suffix) suffix = true := by
  simp [endsWith, List.isSuffixOf_iff_suffix]

theorem dropSuffix_append (X suffix : List Char) :
    dropSuffix (X ++ suffix) suffix.length = X := by
  simp [dropSuffix, List.take_left']

mutual
theorem countTokens_eq_spec (j : Json) (c : Nat) :
    countTokens j c = c + specTokenCount j := by
  cases j with
  | jobj fields => simp [countTokens, specTokenCount, countFields_eq_spec fields c]
  | jarr elems => simp [countTokens, specTokenCount, countElems_eq_spec elems c]
  | jnull => simp [countTokens, specTokenCount]
  | jbool b => simp [countTokens, specTokenCount]
  | jnum n => simp [countTokens, specTokenCount]
  | jstr s => simp [countTokens, specTokenCount]

theorem countFields_eq_spec (fields : JsonObj) (c : Nat) :
    countFields fields c = c + specCountFields fields := by
  cases fields with
  | nil => simp [countFields, specCountFields]
  | cons k v tail =>
      simp only [countFields, specCountFields]
      rw [countFields_eq_spec tail, countChild_eq_spec v c]
      omega

theorem countElems_eq_spec (elems : JsonArr) (c : Nat) :
    countElems elems c = c + specCountElems elems := by
  cases elems with
  | nil => simp [countElems, specCountElems]
  | cons v tail =>
      simp only [countElems, specCountElems]
      rw [countElems_eq_spec tail, countChild_eq_spec v c]
      omega

theorem countChild_eq_spec (v : Json) (c : Nat) :
    countChild v c = c + specCountEntry v := by
  cases v with
  | jobj fields =>
      simp only [countChild, specCountEntry]
      by_cases h : keyMem fields dollarValueKey
      · simp [h]
      · simp [h, countFields_eq_spec fields c]
  | jarr elems => simp [countChild, specCountEntry, countElems_eq_spec elems c]
  | jnull => simp [countChild, specCountEntry]
  | jbool b => simp [countChild, specCountEntry]
  | jnum n => simp [countChild, specCountEntry]
  | jstr s => simp [countChild, specCountEntry]
end

mutual
theorem specTokenCount_eq_pathLen (j : Json) (cp : List (List Char)) :
    specTokenCount j = (tokenPathList j cp).length := by
  cases j with
  | jobj fields => simpa [specTokenCount, tokenPathList] using specCountFields_eq_pathLen fields cp
  | jarr elems => simpa [specTokenCount, tokenPathList] using specCountElems_eq_pathLen elems 0 cp
  | jnull => simp [specTokenCount, tokenPathList]
  | jbool b => simp [specTokenCount, tokenPathList]
  | jnum n => simp [specTokenCount, tokenPathList]
  | jstr s => simp [specTokenCount, tokenPathList]

theorem specCountFields_eq_pathLen (fields : JsonObj) (cp : List (List Char)) :
    specCountFields fields = (pathsFields fields cp).length := by
  cases fields with
  | nil => simp [specCountFields, pathsFields]
  | cons k v tail =>
      simp only [specCountFields, pathsFields, List.length_append]
      rw [specCountFields_eq_pathLen tail cp, specCountEntry_eq_pathLen k v cp]

theorem specCountElems_eq_pathLen (elems : JsonArr) (i : Nat) (cp : List (List Char)) :
    specCountElems elems = (pathsArr elems i cp).length := by
  cases elems with
  | nil => simp [specCountElems, pathsArr]
  | cons v tail =>
      simp only [specCountElems, pathsArr, List.length_append]
      rw [specCountElems_eq_pathLen tail (i + 1) cp, specCountEntry_eq_pathLen (natKey i) v cp]

theorem specCountEntry_eq_pathLen (k : List Char) (v : Json) (cp : List (List Char)) :
    specCountEntry v = (pathsEntry k v cp).length := by
  cases v with
  | jobj fields =>
      simp only [specCountEntry, pathsEntry]
      by_cases h : keyMem fields dollarValueKey
      · simp [h]
      · simpa [h] using specCountFields_eq_pathLen fields (cp ++ [k])
  | jarr elems =>
      simpa [specCountEntry, pathsEntry] using specCountElems_eq_pathLen elems 0 (cp ++ [k])
  | jnull => simp [specCountEntry, pathsEntry]
  | jbool b => simp [specCountEntry, pathsEntry]
  | jnum n => simp [specCountEntry, pathsEntry]
  | jstr s => simp [specCountEntry, pathsEntry]
end

theorem insertAll_append (paths a b : List (List Char)) :
    insertAll paths (a ++ b) = insertAll (insertAll paths a) b := by
  simp [insertAll, List.foldl_append]

mutual
theorem extractTokenPaths_eq_insertAll (j : Json) (cp paths : List (List Char)) :
    extractTokenPaths j cp paths = insertAll paths (tokenPathList j cp) := by
  cases j with
  | jobj fields =>
      simpa [extractTokenPaths, tokenPathList] using extractFields_eq_insertAll fields cp paths
  | jarr elems =>
      simpa [extractTokenPaths, tokenPathList] using extractElems_eq_insertAll elems 0 cp paths
  | jnull => simp [extractTokenPaths, tokenPathList, insertAll]
  | jbool b => simp [extractTokenPaths, tokenPathList, insertAll]
  | jnum n => simp [extractTokenPaths, tokenPathList, insertAll]
  | jstr s => simp [extractTokenPaths, tokenPathList, insertAll]

theorem extractFields_eq_insertAll (fields : JsonObj) (cp paths : List (List Char)) :
    extractFields fields cp paths = insertAll paths (pathsFields fields cp) := by
  cases fields with
  | nil => simp [extractFields, pathsFields, insertAll]
  | cons k v tail =>
      simp only [extractFields, pathsFields]
      rw [extractFields_eq_insertAll tail cp, extractEntry_eq_insertAll k v cp paths,
        insertAll_append]

theorem extractElems_eq_insertAll (elems : JsonArr) (i : Nat) (cp paths : List (List Char)) :
    extractElems elems i cp paths = insertAll paths (pathsArr elems i cp) := by
  cases elems with
  | nil => simp [extractElems, pathsArr, insertAll]
  | cons v tail =>
      simp only [extractElems, pathsArr]
      rw [extractElems_eq_insertAll tail (i + 1) cp,
        extractEntry_eq_insertAll (natKey i) v cp paths, insertAll_append]

theorem extractEntry_eq_insertAll (k : List Char) (v : Json) (cp paths : List (List Char)) :
    extractEntry k v cp paths = insertAll paths (pathsEntry k v cp) := by
  cases v with
  | jobj fields =>
      simp only [extractEntry, pathsEntry]
      by_cases h : keyMem fields dollarValueKey
      · simp [h, insertAll, insertSet]
      · simpa [h] using extractFields_eq_insertAll fields (cp ++ [k]) paths
  | jarr elems =>
      simpa [extractEntry, pathsEntry] using extractElems_eq_insertAll elems 0 (cp ++ [k]) paths
  | jnull => simp [extractEntry, pathsEntry, insertAll]
  | jbool b => simp [extractEntry, pathsEntry, insertAll]
  | jnum n => simp [extractEntry, pathsEntry, insertAll]
  | jstr s => simp [extractEntry, pathsEntry, insertAll]
end

theorem insertAll_length_le (l paths : List (List Char)) :
    (insertAll paths l).length ≤ paths.length + l.length := by
  induction l generalizing paths with
  | nil => simp [insertAll]
  | cons x rest ih =>
      have h1 : insertAll paths (x :: rest) = insertAll (insertSet paths x) rest := by
        simp [insertAll]
      have h2 : (insertSet paths x).length ≤ paths.length + 1 := by
        by_cases hx : x ∈ paths <;> simp [insertSet, hx]
      calc (insertAll paths (x :: rest)).length
          ≤ (insertSet paths x).length + rest.length := by rw [h1]; exact ih _
        _ ≤ paths.length + 1 + rest.length := by omega
        _ = paths.length + (x :: rest).length := by simp; omega

theorem insertAll_length_nodup (l paths : List (List Char)) (hnd : l.Nodup)
    (hdisj : ∀ x ∈ l, x ∉ paths) :
    (insertAll paths l).length = paths.length + l.length := by
  induction l generalizing paths with
  | nil => simp [insertAll]
  | cons x rest ih =>
      have h1 : insertAll paths (x :: rest) = insertAll (insertSet paths x) rest := by
        simp [insertAll]
      have hx : x ∉ paths := hdisj x (List.mem_cons_self x rest)
      have h2 : insertSet paths x = paths ++ [x] := by simp [insertSet, hx]
      have hnd' : rest.Nodup := (List.nodup_cons.mp hnd).2
      have hxrest : x ∉ rest := (List.nodup_cons.mp hnd).1
      have hdisj' : ∀ y ∈ rest, y ∉ insertSet paths x := by
        intro y hy
        rw [h2]
        simp only [List.mem_append, List.mem_singleton]
        rintro (hyp | hyx)
        · exact hdisj y (List.mem_cons_of_mem x hy) hyp
        · exact hxrest (hyx ▸ hy)
      rw [h1, ih (insertSet paths x) hnd' hdisj', h2]
      simp; omega

mutual
theorem hasLegacy_eq_any (j : Json) :
    hasLegacyTokenFormat j = (properSubvalues j).any isLegacyObj := by
  cases j with
  | jobj fields => simpa [hasLegacyTokenFormat, properSubvalues] using legacyFields_eq_any fields
  | jarr elems => simpa [hasLegacyTokenFormat, properSubvalues] using legacyElems_eq_any elems
  | jnull => simp [hasLegacyTokenFormat, properSubvalues]
  | jbool b => simp [hasLegacyTokenFormat, properSubvalues]
  | jnum n => simp [hasLegacyTokenFormat, properSubvalues]
  | jstr s => simp [hasLegacyTokenFormat, properSubvalues]

theorem legacyFields_eq_any (fields : JsonObj) :
    legacyFields fields = (subFields fields).any isLegacyObj := by
  cases fields with
  | nil => simp [legacyFields, subFields]
  | cons k v tail =>
      simp only [legacyFields, subFields, List.any_append, List.any_cons]
      rw [legacyFields_eq_any tail, legacyChild_eq_any v]

theorem legacyElems_eq_any (elems : JsonArr) :
    legacyElems elems = (subElems elems).any isLegacyObj := by
  cases elems with
  | nil => simp [legacyElems, subElems]
  | cons v tail =>
      simp only [legacyElems, subElems, List.any_append, List.any_cons]
      rw [legacyElems_eq_any tail, legacyChild_eq_any v]

theorem legacyChild_eq_any (v : Json) :
    legacyChild v = (isLegacyObj v || (properSubvalues v).any isLegacyObj) := by
  cases v with
  | jobj fields =>
      simp only [legacyChild, isLegacyObj, properSubvalues]
      rw [legacyFields_eq_any fields]
  | jarr elems =>
      simp only [legacyChild, isLegacyObj, properSubvalues]
      rw [legacyElems_eq_any elems]
      simp
  | jnull => simp [legacyChild, isLegacyObj, properSubvalues]
  | jbool b => simp [legacyChild, isLegacyObj, properSubvalues]
  | jnum n => simp [legacyChild, isLegacyObj, properSubvalues]
  | jstr s => simp [legacyChild, isLegacyObj, properSubvalues]
end

theorem jsToLowerChar_idem (c : Char) :
    jsToLowerChar (jsToLowerChar c) = jsToLowerChar c := by
  unfold jsToLowerChar
  by_cases h : 65 ≤ c.toNat ∧ c.toNat ≤ 90
  · have hvalid : (c.toNat + 32).isValidChar := Or.inl (by omega)
    have htn : (Char.ofNat (c.toNat + 32)).toNat = c.toNat + 32 := by
      simp only [Char.ofNat]
      split
      · rfl
      · next hneg => exact absurd hvalid hneg
    rw [if_pos h, if_neg]
    rw [htn]
    omega
  · rw [if_neg h, if_neg h]

theorem jsToLowerChar_dash : jsToLowerChar '-' = '-' := by decide

mutual
theorem mem_squashWhitespace (l : List Char) (c : Char) (h : c ∈ squashWhitespace l) :
    isJsWhitespace c = false ∧ (c = '-' ∨ c ∈ l) := by
  cases l with
  | nil => simp [squashWhitespace] at h
  | cons x rest =>
      by_cases hx : isJsWhitespace x
      · rw [squashWhitespace, if_pos hx] at h
        rcases List.mem_cons.mp h with hc | hc
        · subst hc
          exact ⟨by decide, Or.inl rfl⟩
        · rcases mem_squashRun rest c hc with ⟨hws, hm⟩
          rcases hm with hm | hm
          · exact ⟨hws, Or.inl hm⟩
          · exact ⟨hws, Or.inr (List.mem_cons_of_mem x hm)⟩
      · rw [squashWhitespace, if_neg hx] at h
        rcases List.mem_cons.mp h with hc | hc
        · subst hc
          exact ⟨by simpa using hx, Or.inr (List.mem_cons_self c rest)⟩
        · rcases mem_squashWhitespace rest c hc with ⟨hws, hm⟩
          rcases hm with hm | hm
          · exact ⟨hws, Or.inl hm⟩
          · exact ⟨hws, Or.inr (List.mem_cons_of_mem x hm)⟩

theorem mem_squashRun (l : List Char) (c : Char) (h : c ∈ squashRun l) :
    isJsWhitespace c = false ∧ (c = '-' ∨ c ∈ l) := by
  cases l with
  | nil => simp [squashRun] at h
  | cons x rest =>
      by_cases hx : isJsWhitespace x
      · rw [squashRun, if_pos hx] at h
        rcases mem_squashRun rest c h with ⟨hws, hm⟩
        rcases hm with hm | hm
        · exact ⟨hws, Or.inl hm⟩
        · exact ⟨hws, Or.inr (List.mem_cons_of_mem x hm)⟩
      · rw [squashRun, if_neg hx] at h
        rcases List.mem_cons.mp h with hc | hc
        · subst hc
          exact ⟨by simpa using hx, Or.inr (List.mem_cons_self c rest)⟩
        · rcases mem_squashWhitespace rest c hc with ⟨hws, hm⟩
          rcases hm with hm | hm
          · exact ⟨hws, Or.inl hm⟩
          · exact ⟨hws, Or.inr (List.mem_cons_of_mem x hm)⟩
end

theorem squashWhitespace_id (l : List Char)
    (h : ∀ c ∈ l, isJsWhitespace c = false) : squashWhitespace l = l := by
  induction l with
  | nil => rfl
  | cons x rest ih =>
      have hx : isJsWhitespace x = false := h x (List.mem_cons_self x rest)
      rw [squashWhitespace, if_neg (by simp [hx])]
      rw [ih fun c hc => h c (List.mem_cons_of_mem x hc)]

theorem map_id_of_fixed {f : Char → Char} (l : List Char) (h : ∀ c ∈ l, f c = c) :
    l.map f = l := by
  induction l with
  | nil => rfl
  | cons x rest ih =>
      simp only [List.map_cons, h x (List.mem_cons_self x rest),
        ih fun c hc => h c (List.mem_cons_of_mem x hc)]

theorem normalizeSegment_idem (s : List Char) :
    normalizeSegment (normalizeSegment s) = normalizeSegment s := by
  unfold normalizeSegment
  have hmap : (squashWhitespace (s.map jsToLowerChar)).map jsToLowerChar
      = squashWhitespace (s.map jsToLowerChar) := by
    apply map_id_of_fixed
    intro c hc
    rcases mem_squashWhitespace _ c hc with ⟨_, hm | hm⟩
    · rw [hm]; exact jsToLowerChar_dash
    · rcases List.mem_map.mp hm with ⟨a, _, ha⟩
      rw [← ha]
      exact jsToLowerChar_idem a
  rw [hmap]
  apply squashWhitespace_id
  intro c hc
  exact (mem_squashWhitespace _ c hc).1

theorem classifyFiles_eq_filters (files : List TokenFile) :
    classifyFiles files =
      (files.filter isRefName, files.filter isThemeName, files.filter isOutputName) := by
  induction files with
  | nil => rfl
  | cons f rest ih =>
      simp only [classifyFiles, ih]
      by_cases h1 : endsWith f.name refSuffix
      · simp [List.filter_cons, isRefName, isThemeName, isOutputName, h1]
      · by_cases h2 : endsWith f.name themeSuffix
        · simp [List.filter_cons, isRefName, isThemeName, isOutputName, h1, h2]
        · by_cases h3 : endsWith f.name inpSuffix
          · simp [List.filter_cons, isRefName, isThemeName, isOutputName, h1, h2, h3]
          · simp [List.filter_cons, isRefName, isThemeName, isOutputName, h1, h2, h3]

theorem discoverTokenFiles_ok (files : List TokenFile) (d : DiscoveredFiles)
    (h : discoverTokenFiles files = Except.ok d) :
    d.referenceFiles = files.filter isRefName ∧
    d.themeFiles = files.filter isThemeName ∧
    d.outputFiles = files.filter isOutputName ∧
    d.allFiles = d.referenceFiles ++ d.themeFiles ++ d.outputFiles := by
  unfold discoverTokenFiles at h
  rw [classifyFiles_eq_filters] at h
  dsimp only at h
  split at h
  · exact absurd h (by simp)
  · have hd := Except.ok.inj h
    subst hd
    exact ⟨rfl, rfl, rfl, rfl⟩

theorem processTokenFile_calls (engine : SDFileConfig → Except (List Char) Unit)
    (f : TokenFile) (allF : List TokenFile) (sel : List Char) :
    (processTokenFile engine f allF sel).2 = (fileCall allF sel f).toList := by
  unfold processTokenFile fileCall validateDTCGFormat
  cases f.content with
  | none => rfl
  | some doc =>
      by_cases hleg : hasLegacyTokenFormat doc
      · simp [hleg]
      · simp only [hleg, if_neg, Bool.false_eq_true, not_false_eq_true, if_false]
        cases engine (mkFileConfig allF (getOutputFileName f.name) sel doc) with
        | error e => simp
        | ok u => simp

theorem processTokenFile_ok (engine : SDFileConfig → Except (List Char) Unit)
    (f : TokenFile) (allF : List TokenFile) (sel : List Char) (r : TransformResult)
    (h : (processTokenFile engine f allF sel).1 = Except.ok r) :
    r.inputPath = f.name ∧ r.outputPath = getOutputFileName f.name ∧
    ∃ doc, f.content = some doc ∧ hasLegacyTokenFormat doc = false ∧
      r.tokenCount = countTokens doc 0 := by
  unfold processTokenFile validateDTCGFormat at h
  cases hc : f.content with
  | none => rw [hc] at h; exact absurd h (by simp)
  | some doc =>
      rw [hc] at h
      dsimp only at h
      by_cases hleg : hasLegacyTokenFormat doc = true
      · rw [if_pos hleg] at h
        exact absurd h (by simp)
      · rw [if_neg hleg] at h
        dsimp only at h
        cases he : engine (mkFileConfig allF (getOutputFileName f.name) sel doc) with
        | error e => rw [he] at h; exact absurd h (by simp)
        | ok u =>
            rw [he] at h
            have hr := Except.ok.inj h
            subst hr
            exact ⟨rfl, rfl, doc, rfl, by simpa using hleg, rfl⟩

theorem processTokenFile_legacy (engine : SDFileConfig → Except (List Char) Unit)
    (f : TokenFile) (allF : List TokenFile) (sel : List Char) (doc : Json)
    (hc : f.content = some doc) (hleg : hasLegacyTokenFormat doc = true) :
    (processTokenFile engine f allF sel).1 = Except.error (dtcgMessage f.name) := by
  unfold processTokenFile validateDTCGFormat
  rw [hc]
  simp [hleg]

theorem processLoop_results (engine : SDFileConfig → Except (List Char) Unit)
    (allF : List TokenFile) (selFn : TokenFile → List Char) (files : List TokenFile)
    (acc : RunOutcome) :
    (processLoop engine allF selFn files acc).results =
      acc.results ++ files.filterMap (fun f => (fileOutcome engine allF (selFn f) f).toOption) := by
  induction files generalizing acc with
  | nil => simp [processLoop]
  | cons f rest ih =>
      rw [processLoop]
      cases hr : (processTokenFile engine f allF (selFn f)).1 with
      | ok r =>
          rw [ih]
          simp [List.filterMap_cons, fileOutcome, hr, Except.toOption]
      | error e =>
          rw [ih]
          simp [List.filterMap_cons, fileOutcome, hr, Except.toOption]

theorem processLoop_skipped (engine : SDFileConfig → Except (List Char) Unit)
    (allF : List TokenFile) (selFn : TokenFile → List Char) (files : List TokenFile)
    (acc : RunOutcome) :
    (processLoop engine allF selFn files acc).stats.tokensSkipped =
      acc.stats.tokensSkipped +
        files.countP (fun f => !isOkE (fileOutcome engine allF (selFn f) f)) := by
  induction files generalizing acc with
  | nil => simp [processLoop]
  | cons f rest ih =>
      rw [processLoop]
      cases hr : (processTokenFile engine f allF (selFn f)).1 with
      | ok r =>
          rw [ih]
          simp [List.countP_cons, fileOutcome, hr, isOkE]
      | error e =>
          rw [ih]
          simp only [List.countP_cons, fileOutcome, hr, isOkE]
          simp
          omega

theorem processLoop_processed (engine : SDFileConfig → Except (List Char) Unit)
    (allF : List TokenFile) (selFn : TokenFile → List Char) (files : List TokenFile)
    (acc : RunOutcome) :
    (processLoop engine allF selFn files acc).stats.tokensProcessed =
      acc.stats.tokensProcessed +
        ((files.filterMap (fun f => (fileOutcome engine allF (selFn f) f).toOption)).map
          TransformResult.tokenCount).sum := by
  induction files generalizing acc with
  | nil => simp [processLoop]
  | cons f rest ih =>
      rw [processLoop]
      cases hr : (processTokenFile engine f allF (selFn f)).1 with
      | ok r =>
          rw [ih]
          simp only [List.filterMap_cons, fileOutcome, hr, Except.toOption]
          simp
          omega
      | error e =>
          rw [ih]
          simp [List.filterMap_cons, fileOutcome, hr, Except.toOption]

theorem processLoop_calls (engine : SDFileConfig → Except (List Char) Unit)
    (allF : List TokenFile) (selFn : TokenFile → List Char) (files : List TokenFile)
    (acc : RunOutcome) :
    (processLoop engine allF selFn files acc).engineCalls =
      acc.engineCalls ++ files.filterMap (fun f => fileCall allF (selFn f) f) := by
  induction files generalizing acc with
  | nil => simp [processLoop]
  | cons f rest ih =>
      rw [processLoop]
      cases hr : (processTokenFile engine f allF (selFn f)).1 with
      | ok r =>
          rw [ih]
          simp only [List.filterMap_cons]
          rw [processTokenFile_calls engine f allF (selFn f)]
          cases hfc : fileCall allF (selFn f) f with
          | none => simp
          | some cfg' => simp
      | error e =>
          rw [ih]
          simp only [List.filterMap_cons]
          rw [processTokenFile_calls engine f allF (selFn f)]
          cases hfc : fileCall allF (selFn f) f with
          | none => simp
          | some cfg' => simp

theorem transformTokens_results (engine : SDFileConfig → Except (List Char) Unit)
    (d : DiscoveredFiles) :
    (transformTokens engine d).results =
      d.outputFiles.filterMap
        (fun f => (fileOutcome engine d.allFiles rootSelector f).toOption) ++
      d.themeFiles.filterMap
        (fun f => (fileOutcome engine d.allFiles (themeSelectorFor f.name) f).toOption) := by
  unfold transformTokens
  rw [processLoop_results, processLoop_results]
  simp

theorem transformTokens_skipped (engine : SDFileConfig → Except (List Char) Unit)
    (d : DiscoveredFiles) :
    (transformTokens engine d).stats.tokensSkipped =
      d.outputFiles.countP
        (fun f => !isOkE (fileOutcome engine d.allFiles rootSelector f)) +
      d.themeFiles.countP
        (fun f => !isOkE (fileOutcome engine d.allFiles (themeSelectorFor f.name) f)) := by
  unfold transformTokens
  rw [processLoop_skipped, processLoop_skipped]
  simp

theorem transformTokens_processed (engine : SDFileConfig → Except (List Char) Unit)
    (d : DiscoveredFiles) :
    (transformTokens engine d).stats.tokensProcessed =
      ((transformTokens engine d).results.map TransformResult.tokenCount).sum := by
  unfold transformTokens
  rw [processLoop_processed, processLoop_processed, processLoop_results, processLoop_results]
  simp

theorem transformTokens_calls (engine : SDFileConfig → Except (List Char) Unit)
    (d : DiscoveredFiles) :
    (transformTokens engine d).engineCalls =
      d.outputFiles.filterMap (fun f => fileCall d.allFiles rootSelector f) ++
      d.themeFiles.filterMap (fun f => fileCall d.allFiles (themeSelectorFor f.name) f) := by
  unfold transformTokens
  rw [processLoop_calls, processLoop_calls]
  simp

theorem exceptToOption_eq_some {ε α : Type} (e : Except ε α) (r : α) :
    e.toOption = some r ↔ e = Except.ok r := by
  cases e <;> simp [Except.toOption]

theorem refSuffix_ends_inp (s : List Char) (h : endsWith s refSuffix = true) :
    endsWith s inpSuffix = true := by
  rw [endsWith, List.isSuffixOf_iff_suffix] at h ⊢
  exact List.IsSuffix.trans ⟨".ref".toList, rfl⟩ h

theorem fileCall_some (allF : List TokenFile) (sel : List Char) (f : TokenFile)
    (cfg : SDFileConfig) (h : fileCall allF sel f = some cfg) :
    cfg.selector = sel ∧ cfg.destination = getOutputFileName f.name ∧
    cfg.source = allF := by
  unfold fileCall at h
  cases hc : f.content with
  | none => rw [hc] at h; exact absurd h (by simp)
  | some doc =>
      rw [hc] at h
      dsimp only at h
      by_cases hleg : hasLegacyTokenFormat doc = true
      · rw [if_pos hleg] at h
        exact absurd h (by simp)
      · rw [if_neg hleg] at h
        have := Option.some.inj h
        subst this
        exact ⟨rfl, rfl, rfl⟩

/-- C1: for every basename `X.inp.json` matching neither the `.ref.inp.json`
nor the `.theme.inp.json` suffix the derived output filename is
`X.vars.gen.css`, and the run invokes the engine for output-bucket files with
the literal `:root` selector; for every basename `X.theme.inp.json` the
derived output filename is `X.vars.gen.css` and the selector built for it is
`[data-mantine-color-scheme='X']`, `X` being the basename with the trailing
`.theme.inp.json` stripped. -/
theorem claim1_filenames_selectors (X : List Char) :
    (endsWith (X ++ inpSuffix) refSuffix = false →
      endsWith (X ++ inpSuffix) themeSuffix = false →
      getOutputFileName (X ++ inpSuffix) = X ++ varsGenCss)
    ∧ getOutputFileName (X ++ themeSuffix) = X ++ varsGenCss
    ∧ themeSelectorFor (X ++ themeSuffix) =
        "[data-mantine-color-scheme=".toList ++ [apos] ++ X ++ [apos, ']']
    ∧ (∀ engine d, (transformTokens engine d).engineCalls =
        d.outputFiles.filterMap (fun f => fileCall d.allFiles rootSelector f) ++
        d.themeFiles.filterMap (fun f => fileCall d.allFiles (themeSelectorFor f.name) f))
    ∧ (∀ allF sel f cfg, fileCall allF sel f = some cfg →
        cfg.selector = sel ∧ cfg.destination = getOutputFileName f.name) := by
  refine ⟨?_, ?_, ?_, ?_, ?_⟩
  · intro h1 h2
    unfold getOutputFileName
    rw [if_neg (by simp [h2]), if_pos (endsWith_append X inpSuffix), dropSuffix_append]
  · unfold getOutputFileName
    rw [if_pos (endsWith_append X themeSuffix), dropSuffix_append]
  · unfold themeSelectorFor getThemeName
    rw [if_pos (endsWith_append X themeSuffix), dropSuffix_append]
  · intro engine d
    exact transformTokens_calls engine d
  · intro allF sel f cfg h
    exact ⟨(fileCall_some allF sel f cfg h).1, (fileCall_some allF sel f cfg h).2.1⟩

/-- Witness for C1 at the concrete basename `core.inp.json`. -/
theorem claim1_witness :
    endsWith ("core".toList ++ inpSuffix) refSuffix = false
    ∧ endsWith ("core".toList ++ inpSuffix) themeSuffix = false
    ∧ getOutputFileName ("core".toList ++ inpSuffix) = "core".toList ++ varsGenCss :=
  ⟨by decide, by decide,
    (claim1_filenames_selectors "core".toList).1 (by decide) (by decide)⟩

/-- C3: every found file lands in at most one bucket (reference first, then
theme, then output, by suffix); the buckets are pairwise disjoint; a file
with the `.ref.inp.json` suffix is classified as reference — although its
name also matches the `.inp.json` output pattern — and no recorded build
result ever stems from such a file. -/
theorem claim3_classification (files : List TokenFile) (d : DiscoveredFiles)
    (h : discoverTokenFiles files = Except.ok d) :
    (∀ f ∈ d.referenceFiles, endsWith f.name refSuffix = true)
    ∧ (∀ f ∈ d.themeFiles,
        endsWith f.name refSuffix = false ∧ endsWith f.name themeSuffix = true)
    ∧ (∀ f ∈ d.outputFiles,
        endsWith f.name refSuffix = false ∧ endsWith f.name themeSuffix = false
          ∧ endsWith f.name inpSuffix = true)
    ∧ (∀ f, ¬(f ∈ d.referenceFiles ∧ f ∈ d.themeFiles)
        ∧ ¬(f ∈ d.referenceFiles ∧ f ∈ d.outputFiles)
        ∧ ¬(f ∈ d.themeFiles ∧ f ∈ d.outputFiles))
    ∧ (∀ f ∈ files, endsWith f.name refSuffix = true → f ∈ d.referenceFiles)
    ∧ (∀ s, endsWith s refSuffix = true → endsWith s inpSuffix = true)
    ∧ (∀ engine r, r ∈ (transformTokens engine d).results →
        endsWith r.inputPath refSuffix = false) := by
  obtain ⟨href, hth, hout, _⟩ := discoverTokenFiles_ok files d h
  have memRef : ∀ f ∈ d.referenceFiles, endsWith f.name refSuffix = true := by
    intro f hf
    rw [href] at hf
    simpa [isRefName] using (List.mem_filter.mp hf).2
  have memTheme : ∀ f ∈ d.themeFiles,
      endsWith f.name refSuffix = false ∧ endsWith f.name themeSuffix = true := by
    intro f hf
    rw [hth] at hf
    have := (List.mem_filter.mp hf).2
    simp only [isThemeName, Bool.and_eq_true, Bool.not_eq_true'] at this
    exact this
  have memOut : ∀ f ∈ d.outputFiles,
      endsWith f.name refSuffix = false ∧ endsWith f.name themeSuffix = false
        ∧ endsWith f.name inpSuffix = true := by
    intro f hf
    rw [hout] at hf
    have := (List.mem_filter.mp hf).2
    simp only [isOutputName, Bool.and_eq_true, Bool.not_eq_true'] at this
    exact ⟨this.1.1, this.1.2, this.2⟩
  refine ⟨memRef, memTheme, memOut, ?_, ?_, refSuffix_ends_inp, ?_⟩
  · intro f
    refine ⟨?_, ?_, ?_⟩
    · rintro ⟨h1, h2⟩
      exact absurd (memRef f h1) (by simp [(memTheme f h2).1])
    · rintro ⟨h1, h2⟩
      exact absurd (memRef f h1) (by simp [(memOut f h2).1])
    · rintro ⟨h1, h2⟩
      exact absurd (memTheme f h1).2 (by simp [(memOut f h2).2.1])
  · intro f hf hrf
    rw [href]
    exact List.mem_filter.mpr ⟨hf, by simpa [isRefName] using hrf⟩
  · intro engine r hr
    rw [transformTokens_results] at hr
    rcases List.mem_append.mp hr with hm | hm
    · rcases List.mem_filterMap.mp hm with ⟨f, hf, hg⟩
      have hok := (exceptToOption_eq_some _ _).mp hg
      have := processTokenFile_ok engine f d.allFiles rootSelector r hok
      rw [this.1]
      exact (memOut f hf).1
    · rcases List.mem_filterMap.mp hm with ⟨f, hf, hg⟩
      have hok := (exceptToOption_eq_some _ _).mp hg
      have := processTokenFile_ok engine f d.allFiles (themeSelectorFor f.name) r hok
      rw [this.1]
      exact (memTheme f hf).1

/-- Witness for C3 on the concrete example scan. -/
theorem claim3_witness : endsWith refFile.name refSuffix = true :=
  (claim3_classification exFoundFiles exDiscovered (by rfl)).1 refFile
    (by simp [exDiscovered])

/-- C9: discovery of a scanned file list fails if and only if no file in it
matches any of the three token-file suffixes; when at least one file
matches, the classified set is returned without an error. -/
theorem claim9_discovery_error (files : List TokenFile) :
    (∃ e, discoverTokenFiles files = Except.error e) ↔
      ∀ f ∈ files, endsWith f.name refSuffix = false
        ∧ endsWith f.name themeSuffix = false ∧ endsWith f.name inpSuffix = false := by
  unfold discoverTokenFiles
  rw [classifyFiles_eq_filters]
  dsimp only
  constructor
  · rintro ⟨e, he⟩
    split at he
    · next hz =>
        have h1 : files.filter isRefName = [] :=
          List.length_eq_zero.mp (by omega)
        have h2 : files.filter isThemeName = [] :=
          List.length_eq_zero.mp (by omega)
        have h3 : files.filter isOutputName = [] :=
          List.length_eq_zero.mp (by omega)
        intro f hf
        have p1 := List.filter_eq_nil_iff.mp h1 f hf
        have p2 := List.filter_eq_nil_iff.mp h2 f hf
        have p3 := List.filter_eq_nil_iff.mp h3 f hf
        simp only [isRefName, Bool.not_eq_true] at p1
        simp only [isThemeName, Bool.and_eq_true, Bool.not_eq_true', not_and,
          Bool.not_eq_true] at p2
        simp only [isOutputName, Bool.and_eq_true, Bool.not_eq_true', not_and,
          Bool.not_eq_true] at p3
        refine ⟨p1, p2 p1, p3 ⟨p1, p2 p1⟩⟩
    · exact absurd he (by simp)
  · intro h
    have h1 : files.filter isRefName = [] :=
      List.filter_eq_nil_iff.mpr fun f hf => by simp [isRefName, (h f hf).1]
    have h2 : files.filter isThemeName = [] :=
      List.filter_eq_nil_iff.mpr fun f hf => by
        simp [isThemeName, (h f hf).1, (h f hf).2.1]
    have h3 : files.filter isOutputName = [] :=
      List.filter_eq_nil_iff.mpr fun f hf => by
        simp [isOutputName, (h f hf).1, (h f hf).2.1, (h f hf).2.2]
    rw [if_pos (by simp [h1, h2, h3])]
    exact ⟨noTokenFilesError, rfl⟩

/-- Witness for C9: a scan without token files makes discovery fail. -/
theorem claim9_witness : ∃ e, discoverTokenFiles noMatchFiles = Except.error e :=
  (claim9_discovery_error noMatchFiles).mpr (by decide)

/-- C2: for every output-producing file that passes parsing and validation,
the engine is invoked exactly once — the run's invocation trace holds one
configuration per such file, in processing order — and that configuration
carries the entire `allFiles` list (which equals
`reference ++ theme ++ output`) as its source set and a filter accepting a
token path exactly when its dot-join belongs to the path set extracted from
that file's own parsed document. -/
theorem claim2_engine_config (files : List TokenFile)
    (engine : SDFileConfig → Except (List Char) Unit) (d : DiscoveredFiles)
    (h : discoverTokenFiles files = Except.ok d) :
    d.allFiles = d.referenceFiles ++ d.themeFiles ++ d.outputFiles
    ∧ (transformTokens engine d).engineCalls =
        d.outputFiles.filterMap (fun f => fileCall d.allFiles rootSelector f) ++
        d.themeFiles.filterMap (fun f => fileCall d.allFiles (themeSelectorFor f.name) f)
    ∧ (∀ allF sel f doc, f.content = some doc → hasLegacyTokenFormat doc = false →
        fileCall allF sel f =
          some (mkFileConfig allF (getOutputFileName f.name) sel doc))
    ∧ (∀ allF dest sel doc, (mkFileConfig allF dest sel doc).source = allF)
    ∧ (∀ allF dest sel doc p, (mkFileConfig allF dest sel doc).filter p = true ↔
        dotJoin p ∈ extractTokenPaths doc [] []) := by
  refine ⟨(discoverTokenFiles_ok files d h).2.2.2, transformTokens_calls engine d,
    ?_, fun allF dest sel doc => rfl, ?_⟩
  · intro allF sel f doc hc hleg
    unfold fileCall
    rw [hc]
    simp [hleg]
  · intro allF dest sel doc p
    simp only [mkFileConfig]
    exact decide_eq_true_iff

/-- Witness for C2 on the concrete example scan. -/
theorem claim2_witness :
    (transformTokens engineOk exDiscovered).engineCalls =
      exDiscovered.outputFiles.filterMap
        (fun f => fileCall exDiscovered.allFiles rootSelector f) ++
      exDiscovered.themeFiles.filterMap
        (fun f => fileCall exDiscovered.allFiles (themeSelectorFor f.name) f) :=
  (claim2_engine_config exFoundFiles engineOk exDiscovered (by rfl)).2.1

/-- C4: the run records exactly the successful per-file results (a failing
file contributes no result), the skip counter counts exactly the failing
files, `tokensProcessed` is the sum of the token counts of the recorded
results, and each successful result carries its input file's name together
with the token count of that file's parsed document — all uniformly in the
engine, so a per-file failure never aborts the surrounding run. -/
theorem claim4_per_file_isolation (engine : SDFileConfig → Except (List Char) Unit)
    (d : DiscoveredFiles) :
    (transformTokens engine d).results =
      d.outputFiles.filterMap
        (fun f => (fileOutcome engine d.allFiles rootSelector f).toOption) ++
      d.themeFiles.filterMap
        (fun f => (fileOutcome engine d.allFiles (themeSelectorFor f.name) f).toOption)
    ∧ (transformTokens engine d).stats.tokensSkipped =
        d.outputFiles.countP
          (fun f => !isOkE (fileOutcome engine d.allFiles rootSelector f)) +
        d.themeFiles.countP
          (fun f => !isOkE (fileOutcome engine d.allFiles (themeSelectorFor f.name) f))
    ∧ (transformTokens engine d).stats.tokensProcessed =
        ((transformTokens engine d).results.map TransformResult.tokenCount).sum
    ∧ (∀ f allF sel r, (processTokenFile engine f allF sel).1 = Except.ok r →
        r.inputPath = f.name ∧
          ∃ doc, f.content = some doc ∧ r.tokenCount = countTokens doc 0) := by
  refine ⟨transformTokens_results engine d, transformTokens_skipped engine d,
    transformTokens_processed engine d, ?_⟩
  intro f allF sel r hok
  obtain ⟨h1, _, doc, hdoc, _, hcount⟩ := processTokenFile_ok engine f allF sel r hok
  exact ⟨h1, doc, hdoc, hcount⟩

/-- Witness for C4 on the concrete output file. -/
theorem claim4_witness :
    ({ outputPath := "core.vars.gen.css".toList, tokenCount := 1,
       inputPath := "core.inp.json".toList } : TransformResult).inputPath = outFile.name
    ∧ ∃ doc, outFile.content = some doc ∧
        ({ outputPath := "core.vars.gen.css".toList, tokenCount := 1,
           inputPath := "core.inp.json".toList } : TransformResult).tokenCount =
          countTokens doc 0 :=
  (claim4_per_file_isolation engineOk exDiscovered).2.2.2 outFile
    exDiscovered.allFiles rootSelector
    { outputPath := "core.vars.gen.css".toList, tokenCount := 1,
      inputPath := "core.inp.json".toList } (by rfl)

/-- Counterexample for C5 as stated: the root object of `exRootLegacyDoc` is
an object in the document's tree carrying a legacy `value` key and lacking
`$value`, yet format validation passes and the file is processed
successfully — the scan never inspects the root object's own keys. -/
theorem claim5_counterexample :
    isLegacyObj exRootLegacyDoc = true
    ∧ validateDTCGFormat exRootLegacyDoc rootLegacyFile.name = Except.ok ()
    ∧ isOkE (processTokenFile engineOk rootLegacyFile [rootLegacyFile]
        rootSelector).1 = true :=
  ⟨rfl, rfl, rfl⟩

/-- C5 (amended): a token document fails format validation — with an error
naming the file — exactly when some object strictly below the root carries a
legacy `value` key but lacks `$value`; the keys of the root object itself
are not inspected; such a failure is confined to that file's processing. -/
theorem claim5_legacy_detection (doc : Json) (fileName : List Char) :
    hasLegacyTokenFormat doc = (properSubvalues doc).any isLegacyObj
    ∧ ((∃ e, validateDTCGFormat doc fileName = Except.error e) ↔
        (properSubvalues doc).any isLegacyObj = true)
    ∧ (∀ engine f allF sel, f.content = some doc →
        (properSubvalues doc).any isLegacyObj = true →
        (processTokenFile engine f allF sel).1 = Except.error (dtcgMessage f.name)) := by
  refine ⟨hasLegacy_eq_any doc, ?_, ?_⟩
  · unfold validateDTCGFormat
    rw [hasLegacy_eq_any doc]
    by_cases h : (properSubvalues doc).any isLegacyObj = true
    · simp [h]
    · simp [h]
  · intro engine f allF sel hc hany
    exact processTokenFile_legacy engine f allF sel doc hc
      ((hasLegacy_eq_any doc).trans hany)

/-- Witness for C5 on the concrete nested-legacy file. -/
theorem claim5_witness :
    (processTokenFile engineOk legacyFile [legacyFile] rootSelector).1 =
      Except.error (dtcgMessage legacyFile.name) :=
  (claim5_legacy_detection exLegacyDoc legacyFile.name).2.2 engineOk legacyFile
    [legacyFile] rootSelector rfl (by rfl)

/-- Counterexample for C6 as stated: in `exArrayDoc` the only `$value` node
sits inside an array; the walk described by the claim (arrays neither
counted nor descended into) yields 0, but `countTokens` — which does descend
into arrays, since JS `typeof [] === "object"` — yields 1. -/
theorem claim6_counterexample :
    countTokens exArrayDoc 0 = 1 ∧ claimCountNoArrays exArrayDoc = 0 :=
  ⟨rfl, rfl⟩

/-- C6 (amended): `countTokens` computes the recursive walk in which an
object with `$value` counts as one token and is not descended into, every
other object is descended into uncounted, arrays are also descended into
(uncounted, their elements processed like object values), and primitives
are neither counted nor descended into; a document with three `$value`
leaves at varying depths yields 3. -/
theorem claim6_count_walk :
    (∀ j c, countTokens j c = c + specTokenCount j)
    ∧ countTokens exThreeLeafDoc 0 = 3 :=
  ⟨countTokens_eq_spec, rfl⟩

/-- Counterexample for C7 as stated: `exDotDoc` has two token nodes (count
2) whose dot-joined paths collide on `a.b`, so the extracted path set has
cardinality 1 and the claimed equality fails; the dot-joined paths of the
document's token nodes are not pairwise distinct. -/
theorem claim7_counterexample :
    countTokens exDotDoc 0 = 2 ∧ (extractTokenPaths exDotDoc [] []).length = 1
    ∧ ¬ (tokenPathList exDotDoc []).Nodup :=
  ⟨rfl, rfl, by decide⟩

/-- C7 (amended): for every document the cardinality of the extracted path
set is at most the token count, with equality exactly guaranteed when the
dot-joined paths of the document's token nodes are pairwise distinct —
which keys containing `.` can violate. -/
theorem claim7_count_vs_paths (doc : Json) :
    (extractTokenPaths doc [] []).length ≤ countTokens doc 0
    ∧ ((tokenPathList doc []).Nodup →
        (extractTokenPaths doc [] []).length = countTokens doc 0) := by
  have hcount : countTokens doc 0 = (tokenPathList doc []).length := by
    rw [countTokens_eq_spec doc 0, specTokenCount_eq_pathLen doc []]
    omega
  have hext : extractTokenPaths doc [] [] = insertAll [] (tokenPathList doc []) :=
    extractTokenPaths_eq_insertAll doc [] []
  constructor
  · rw [hcount, hext]
    have := insertAll_length_le (tokenPathList doc []) []
    simpa using this
  · intro hnd
    rw [hcount, hext]
    have := insertAll_length_nodup (tokenPathList doc []) [] hnd (by simp)
    simpa using this

/-- Witness for C7 on a document with pairwise distinct token paths. -/
theorem claim7_witness :
    (extractTokenPaths exCoreDoc [] []).length = countTokens exCoreDoc 0 :=
  (claim7_count_vs_paths exCoreDoc).2 (by decide)

/-- C8: per-segment name normalization (lowercase, then each whitespace run
becomes one dash) is idempotent, and the full transform joins normalized
segments with dashes, leaving existing dashes untouched: `["Deep Sage","0"]`
gives `deep-sage-0`, `["A B","c-D"]` gives `a-b-c-d`, and `["text-size"]`
stays `text-size`. -/
theorem claim8_normalization :
    (∀ s, normalizeSegment (normalizeSegment s) = normalizeSegment s)
    ∧ kebabName ["Deep Sage".toList, "0".toList] = "deep-sage-0".toList
    ∧ kebabName ["A B".toList, "c-D".toList] = "a-b-c-d".toList
    ∧ kebabName ["text-size".toList] = "text-size".toList :=
  ⟨normalizeSegment_idem, rfl, rfl, rfl⟩

/-- C10: the TypeScript `processTokenFile` and the compiled `dist` variant
agree on every document free of the legacy shape, for every engine; on a
document containing a legacy `value` object the source version fails
without invoking the engine while the `dist` version — which performs no
format validation — proceeds to build. -/
theorem claim10_dist_vs_src :
    (∀ engine f allF sel doc, f.content = some doc →
      hasLegacyTokenFormat doc = false →
      processTokenFile engine f allF sel = distProcessTokenFile engine f allF sel)
    ∧ isOkE (processTokenFile engineOk legacyFile [legacyFile] rootSelector).1 = false
    ∧ (processTokenFile engineOk legacyFile [legacyFile] rootSelector).2 = []
    ∧ isOkE (distProcessTokenFile engineOk legacyFile [legacyFile] rootSelector).1 = true
    ∧ (distProcessTokenFile engineOk legacyFile [legacyFile] rootSelector).2.length = 1 := by
  refine ⟨?_, rfl, rfl, rfl, rfl⟩
  intro engine f allF sel doc hc hleg
  unfold processTokenFile distProcessTokenFile validateDTCGFormat
  rw [hc]
  simp [hleg]

/-- Witness for C10 on the concrete legacy-free output file. -/
theorem claim10_witness :
    processTokenFile engineOk outFile [outFile] rootSelector =
      distProcessTokenFile engineOk outFile [outFile] rootSelector :=
  claim10_dist_vs_src.1 engineOk outFile [outFile] rootSelector exCoreDoc rfl (by rfl)
